import Mathlib

/-!
# Verification of the TDDD25 distributed lock (`modules/Server/Lock/distributedLock.py`)

Shallow embedding of `DistributedLock`, the token-based Ricart–Agrawala
mutual-exclusion implementation.  Python dictionaries (insertion ordered,
integer keys) are modelled as association lists with in-place update; the
peer-list monitor is modelled by an explicit hold-depth counter, and
network reachability of a remote peer is an oracle `reach : Nat → Bool`
(an outbound call to `p` raises a transport error exactly when
`reach p = false`).
-/

set_option autoImplicit false

/-- A Python `dict` with `int` keys and values: an insertion-ordered
association list whose keys are unique. -/
abbrev Dict := List (Nat × Nat)

namespace Dict

/-- `d[k]`, returning `none` where Python raises `KeyError`. -/
def lookup : Dict → Nat → Option Nat
  | [], _ => none
  | (k, v) :: rest, key => if k = key then some v else lookup rest key

/-- `d[k] = v`: replace the value in place when the key exists, else append. -/
def insert : Dict → Nat → Nat → Dict
  | [], k, v => [(k, v)]
  | (k', v') :: rest, k, v =>
      if k' = k then (k, v) :: rest else (k', v') :: insert rest k v

/-- `del d[k]` (no-op where Python raises `KeyError`). -/
def erase : Dict → Nat → Dict
  | [], _ => []
  | (k', v') :: rest, k => if k' = k then rest else (k', v') :: erase rest k

/-- The keys of the dictionary, in insertion order. -/
def keys (d : Dict) : List Nat := d.map Prod.fst

@[simp] theorem lookup_nil (k : Nat) : lookup [] k = none := rfl

@[simp] theorem lookup_cons (k' v' : Nat) (rest : Dict) (k : Nat) :
    lookup ((k', v') :: rest) k = if k' = k then some v' else lookup rest k := rfl

@[simp] theorem keys_nil : keys [] = [] := rfl

@[simp] theorem keys_cons (k v : Nat) (rest : Dict) :
    keys ((k, v) :: rest) = k :: keys rest := rfl

theorem lookup_insert_self (d : Dict) (k v : Nat) :
    lookup (insert d k v) k = some v := by
  induction d with
  | nil => simp [insert, lookup]
  | cons hd tl ih =>
      obtain ⟨k', v'⟩ := hd
      by_cases h : k' = k <;> simp [insert, lookup, h, ih]

theorem lookup_insert_ne (d : Dict) (k v q : Nat) (h : k ≠ q) :
    lookup (insert d k v) q = lookup d q := by
  induction d with
  | nil => simp [insert, lookup, h]
  | cons hd tl ih =>
      obtain ⟨k', v'⟩ := hd
      by_cases h' : k' = k
      · subst h'
        simp [insert, lookup, h]
      · simp only [insert, if_neg h']
        by_cases h'' : k' = q <;> simp [lookup, h'', ih]

/-- Inserting a fresh key appends it at the end (Python dict semantics). -/
theorem insert_fresh (d : Dict) (k v : Nat) (h : k ∉ keys d) :
    insert d k v = d ++ [(k, v)] := by
  induction d with
  | nil => simp [insert]
  | cons hd tl ih =>
      obtain ⟨k', v'⟩ := hd
      simp only [keys_cons, List.mem_cons] at h
      push_neg at h
      simp [insert, Ne.symm h.1, ih h.2]

end Dict

/-! ## State constants (module-level constants of the Python file) -/

def NO_TOKEN : Nat := 0
def TOKEN_PRESENT : Nat := 1
def TOKEN_HELD : Nat := 2

/-! ## The lock state

Fields `ownId`, `time`, `token`, `request`, `state` embed
`self.owner.id`, `self.time`, `self.token`, `self.request`, `self.state`.

`peers` models the external peer registry's membership
(modelled from the spec: `get_peers()` returns the peer ids in ascending
order, excluding the owner's id; `unregister_peer(pid)` drops `pid`).

The remaining fields are observation instrumentation:
* `lockDepth`   — net `acquire`s minus `release`s on `peer_list.lock`;
* `notified`    — whether `lock.notify_all()` has been issued;
* `sent`        — peers to whom `obtain_token` was successfully delivered;
* `reqSent`     — peers to whom `request_token` was successfully delivered;
* `evictLog`    — each `del self.request[p]` performed by a failure
                  handler, paired with the monitor hold-depth at that
                  moment;
* `unregistered`— arguments of `peer_list.unregister_peer` calls;
* `uncaughtErr` — an exception escaped the operation (e.g. `KeyError`
                  reading a missing dictionary key outside any `try`). -/
structure DistributedLock where
  ownId : Nat
  peers : List Nat
  time : Nat
  token : Option Dict
  request : Dict
  state : Nat
  lockDepth : Int := 0
  notified : Bool := false
  sent : List Nat := []
  reqSent : List Nat := []
  evictLog : List (Nat × Int) := []
  unregistered : List Nat := []
  uncaughtErr : Bool := false
deriving Repr, DecidableEq

namespace DistributedLock

/-- Loop body of `get_order`: split the peer ids into those above and
those below the owner's id, keeping their relative order. -/
def orderSplit (own : Nat) : List Nat → List Nat × List Nat
  | [] => ([], [])
  | p :: rest =>
      let (hi, lo) := orderSplit own rest
      if p < own then (hi, p :: lo)
      else if p > own then (p :: hi, lo)
      else (hi, lo)

/-- `get_order`: ids higher than our own first, then the lower ones. -/
def get_order (st : DistributedLock) : List Nat :=
  (orderSplit st.ownId st.peers).1 ++ (orderSplit st.ownId st.peers).2

/-- `_prepare`: `list(token.items())` — a Python dict is insertion
ordered, so its item list is exactly the association list itself. -/
def prepareTok (token : Dict) : List (Nat × Nat) := token

/-- `_unprepare`: `dict(token)` — rebuild a dict by inserting the pairs
in order. -/
def unprepareTok (token : List (Nat × Nat)) : Dict :=
  token.foldl (fun d pt => d.insert pt.1 pt.2) []

end DistributedLock

/-! ## The operations -/

namespace DistributedLock

/-- `__init__(owner, peer_list)`: the freshly constructed lock object. -/
def mkLock (ownId : Nat) (peers : List Nat) : DistributedLock :=
  { ownId := ownId, peers := peers, time := 0, token := none,
    request := [], state := NO_TOKEN }

/-- The `for peer in peers` loop of `initialize`:
`self.request[peer] = 0; self.token[peer] = 0`. -/
def initPeers : List Nat → DistributedLock → DistributedLock
  | [], st => st
  | p :: rest, st =>
      initPeers rest
        { st with request := st.request.insert p 0,
                  token := st.token.map (fun tok => tok.insert p 0) }

/-- `initialize()`: under the monitor, set `request[own] = 0`,
`token = {own: 0}`; if other peers exist give each a zero entry in both
dictionaries, otherwise take the token (`state = TOKEN_PRESENT`). -/
def init (st : DistributedLock) : DistributedLock :=
  let st := { st with lockDepth := st.lockDepth + 1 }
  let st := { st with request := st.request.insert st.ownId 0,
                      token := some (Dict.insert [] st.ownId 0) }
  let st :=
    match st.peers with
    | [] => { st with state := TOKEN_PRESENT }
    | _ :: _ => initPeers st.peers st
  { st with lockDepth := st.lockDepth - 1 }

/-- `register_peer(pid)`.  When `self.token` is `None` the statement
`self.token[pid] = 0` raises and the monitor is never released. -/
def register_peer (pid : Nat) (st : DistributedLock) : DistributedLock :=
  let st := { st with lockDepth := st.lockDepth + 1, time := st.time + 1,
                      request := st.request.insert pid 0 }
  match st.token with
  | some tok => { st with token := some (tok.insert pid 0),
                          lockDepth := st.lockDepth - 1 }
  | none => { st with uncaughtErr := true }

/-- `unregister_peer(pid)`.  A missing key makes `del` raise with the
monitor still held. -/
def unregister_peer (pid : Nat) (st : DistributedLock) : DistributedLock :=
  let st := { st with lockDepth := st.lockDepth + 1, time := st.time + 1 }
  match st.request.lookup pid with
  | none => { st with uncaughtErr := true }
  | some _ =>
      let st := { st with request := st.request.erase pid }
      match st.token with
      | none => { st with uncaughtErr := true }
      | some tok =>
          match tok.lookup pid with
          | none => { st with uncaughtErr := true }
          | some _ => { st with token := some (tok.erase pid),
                                lockDepth := st.lockDepth - 1 }

/-- The `for peer_id in order` loop of `release` (lines 238–256).
For each candidate: read `request[p]` and `token[p]` (a missing key or a
`None` token raises into the outer `except`, aborting the loop); when
`request[p] > token[p]`, release the monitor and attempt the send.
Success: re-acquire, `state = NO_TOKEN`, stop.  Transport error: the
handler sets `state = TOKEN_PRESENT`, deletes `p` from both
dictionaries, unregisters `p`, and continues — without re-acquiring the
monitor. -/
def releaseLoop (reach : Nat → Bool) : List Nat → DistributedLock → DistributedLock
  | [], st => st
  | p :: rest, st =>
      match st.request.lookup p, st.token with
      | some r, some tok =>
          match tok.lookup p with
          | some tv =>
              if r > tv then
                let st1 := { st with lockDepth := st.lockDepth - 1 }
                if reach p then
                  { st1 with lockDepth := st1.lockDepth + 1,
                             state := NO_TOKEN, sent := st1.sent ++ [p] }
                else
                  releaseLoop reach rest
                    { st1 with state := TOKEN_PRESENT,
                               evictLog := st1.evictLog ++ [(p, st1.lockDepth)],
                               request := st1.request.erase p,
                               token := some (tok.erase p),
                               unregistered := st1.unregistered ++ [p],
                               peers := st1.peers.filter (fun q => q ≠ p) }
              else releaseLoop reach rest st
          | none => st
      | _, _ => st

/-- `release()`: bump the clock; a holder stamps `token[own]` and moves
to `TOKEN_PRESENT`; with the token present, try to forward it along
`get_order`; the `finally` releases the monitor — but only the
`TOKEN_PRESENT` branch has that `finally`, so a call in state
`NO_TOKEN` returns with the monitor still held. -/
def release (reach : Nat → Bool) (st : DistributedLock) : DistributedLock :=
  let st := { st with lockDepth := st.lockDepth + 1, time := st.time + 1 }
  if st.state = TOKEN_HELD ∧ st.token = none then
    { st with uncaughtErr := true }
  else
    let st :=
      if st.state = TOKEN_HELD then
        { st with token := st.token.map (fun tok => tok.insert st.ownId st.time),
                  state := TOKEN_PRESENT }
      else st
    if st.state = TOKEN_PRESENT then
      let st := releaseLoop reach (get_order st) st
      { st with lockDepth := st.lockDepth - 1 }
    else st

/-- The hand-off loop of `destroy` (lines 146–159): release the monitor,
send the token to `p` unconditionally (the send raises when `p` is
unreachable or `self.token` is `None`), re-acquire; a failed recipient
is skipped without any eviction. -/
def destroyLoop (reach : Nat → Bool) : List Nat → DistributedLock → DistributedLock
  | [], st => st
  | p :: rest, st =>
      let st1 := { st with lockDepth := st.lockDepth - 1 }
      if st1.token.isSome && reach p then
        { st1 with lockDepth := st1.lockDepth + 1,
                   state := NO_TOKEN, sent := st1.sent ++ [p] }
      else
        destroyLoop reach rest { st1 with lockDepth := st1.lockDepth + 1 }

/-- `destroy()`: if the token is here (`state ≠ NO_TOKEN`) first run
`release()` (dropping and re-taking the monitor around it); if the token
is still present, walk the priority order handing it to the first
reachable peer; finally release the monitor. -/
def destroy (reach : Nat → Bool) (st : DistributedLock) : DistributedLock :=
  let st := { st with lockDepth := st.lockDepth + 1, time := st.time + 1 }
  let st :=
    if st.state ≠ NO_TOKEN then
      let st := { st with lockDepth := st.lockDepth - 1 }
      let st := release reach st
      { st with lockDepth := st.lockDepth + 1 }
    else st
  let st :=
    if st.state = TOKEN_PRESENT then destroyLoop reach (get_order st) st else st
  { st with lockDepth := st.lockDepth - 1 }

/-- The `for peer_id in peers` loop of `acquire` (lines 191–208): drop
the monitor, send `request_token`; on a transport error the handler
re-acquires the monitor, deletes `p` from both dictionaries, unregisters
`p`, releases, and the `finally` re-acquires before the next round. -/
def acquireLoop (reach : Nat → Bool) : List Nat → DistributedLock → DistributedLock
  | [], st => st
  | p :: rest, st =>
      let st1 := { st with lockDepth := st.lockDepth - 1 }
      if reach p then
        acquireLoop reach rest
          { st1 with reqSent := st1.reqSent ++ [p], lockDepth := st1.lockDepth + 1 }
      else
        let st2 := { st1 with lockDepth := st1.lockDepth + 1 }
        match st2.token with
        | some tok =>
            let st3 :=
              { st2 with evictLog := st2.evictLog ++ [(p, st2.lockDepth)],
                         request := st2.request.erase p,
                         token := some (tok.erase p),
                         unregistered := st2.unregistered ++ [p],
                         peers := st2.peers.filter (fun q => q ≠ p),
                         lockDepth := st2.lockDepth - 1 }
            acquireLoop reach rest { st3 with lockDepth := st3.lockDepth + 1 }
        | none =>
            { st2 with evictLog := st2.evictLog ++ [(p, st2.lockDepth)],
                       request := st2.request.erase p,
                       lockDepth := st2.lockDepth + 1,
                       uncaughtErr := true }

/-- The request-broadcast phase of `acquire` (lines 184–208): everything
up to the condition-variable wait.  The wait and the following
`TOKEN_HELD` transition synchronise with another thread and are outside
this sequential model. -/
def acquireRequestPhase (reach : Nat → Bool) (st : DistributedLock) : DistributedLock :=
  let st := { st with lockDepth := st.lockDepth + 1, time := st.time + 1 }
  if st.state = NO_TOKEN then acquireLoop reach st.peers st else st

/-- The monitor section of `request_token` (lines 270–273):
`self.time = max(self.time + 1, time + 1)`;
`self.request[pid] = max(self.request[pid], self.time)`.  A `pid`
missing from `request` raises `KeyError` after the clock update, with
the monitor still held. -/
def requestTokenUpdate (t pid : Nat) (st : DistributedLock) : DistributedLock :=
  let st := { st with lockDepth := st.lockDepth + 1 }
  let newTime := max (st.time + 1) (t + 1)
  match st.request.lookup pid with
  | none => { st with time := newTime, uncaughtErr := true }
  | some r =>
      { st with time := newTime,
                request := st.request.insert pid (max r newTime),
                lockDepth := st.lockDepth - 1 }

/-- `request_token(time, pid)`: the monitor update, then — outside the
monitor — `release()` when `state = TOKEN_PRESENT`.  The boolean records
whether that `release()` call was made. -/
def request_token (reach : Nat → Bool) (t pid : Nat) (st : DistributedLock) :
    DistributedLock × Bool :=
  let st' := requestTokenUpdate t pid st
  match st.request.lookup pid with
  | none => (st', false)
  | some _ =>
      if st'.state = TOKEN_PRESENT then (release reach st', true) else (st', false)

/-- One element of the wire payload handed to `obtain_token`: a
well-formed `[peer_id, timestamp]` pair, or a malformed element on which
the merge raises. -/
inductive PEntry where
  | ok (p t : Nat)
  | bad
deriving Repr, DecidableEq

/-- The merge in `obtain_token`'s `try` block: apply well-formed entries
in order (`self.token[p] = t; self.time = max(self.time, t + 1)`) until
a malformed one raises.  Returns the dictionary, the clock, and whether
an exception was raised (it is caught and only logged). -/
def obtainLoop : List PEntry → Dict → Nat → Dict × Nat × Bool
  | [], tok, time => (tok, time, false)
  | .ok p t :: rest, tok, time => obtainLoop rest (tok.insert p t) (max time (t + 1))
  | .bad :: _, tok, time => (tok, time, true)

/-- `obtain_token(token)`: bump the clock, merge the received entries
(partially, if an entry raises — the exception is caught), and in the
`finally` set `state = TOKEN_PRESENT`, `notify_all`, and release the
monitor.  A `None` local token makes the first assignment raise, so
nothing merges, but the `finally` still runs. -/
def obtain_token (payload : List PEntry) (st : DistributedLock) : DistributedLock :=
  let st := { st with lockDepth := st.lockDepth + 1, time := st.time + 1 }
  let merged : Option Dict × Nat :=
    match st.token with
    | some tok =>
        let (d, t2, _) := obtainLoop payload tok st.time
        (some d, t2)
    | none => (none, st.time)
  { st with token := merged.1, time := merged.2,
            state := TOKEN_PRESENT, notified := true,
            lockDepth := st.lockDepth - 1 }

end DistributedLock

/-! ## Helper lemmas -/

namespace Dict

/-- Folding insertions of entries with fresh, distinct keys appends them. -/
theorem foldl_insert_append (l : List (Nat × Nat)) :
    ∀ acc : Dict, (keys acc ++ l.map Prod.fst).Nodup →
      l.foldl (fun d pt => d.insert pt.1 pt.2) acc = acc ++ l := by
  induction l with
  | nil => intro acc _; simp
  | cons hd tl ih =>
      intro acc h
      obtain ⟨k, v⟩ := hd
      have hk : k ∉ keys acc := by
        intro hmem
        rcases List.nodup_append.mp h with ⟨_, _, hdisj⟩
        exact hdisj hmem (by simp)
      have hstep : insert acc k v = acc ++ [(k, v)] := insert_fresh acc k v hk
      have h' : (keys (acc ++ [(k, v)]) ++ tl.map Prod.fst).Nodup := by
        have : keys (acc ++ [(k, v)]) = keys acc ++ [k] := by simp [keys]
        rw [this, List.append_assoc]
        simpa using h
      calc (((k, v) :: tl).foldl (fun d pt => d.insert pt.1 pt.2) acc)
          = tl.foldl (fun d pt => d.insert pt.1 pt.2) (acc ++ [(k, v)]) := by
            simp [hstep]
        _ = (acc ++ [(k, v)]) ++ tl := ih (acc ++ [(k, v)]) h'
        _ = acc ++ (k, v) :: tl := by simp

/-- Replacing a stored value by itself leaves the dictionary unchanged. -/
theorem insert_lookup_self (d : Dict) (k v : Nat) (h : lookup d k = some v) :
    insert d k v = d := by
  induction d with
  | nil => simp [lookup] at h
  | cons hd tl ih =>
      obtain ⟨k', v'⟩ := hd
      by_cases hk : k' = k
      · subst hk
        simp [lookup] at h
        simp [insert, h]
      · simp [lookup, hk] at h
        simp [insert, hk, ih h]

/-- A key not among the folded entries keeps its original binding. -/
theorem lookup_foldl_insert_not_mem (l : List (Nat × Nat)) :
    ∀ (d : Dict) (k : Nat), k ∉ l.map Prod.fst →
      lookup (l.foldl (fun d pt => d.insert pt.1 pt.2) d) k = lookup d k := by
  induction l with
  | nil => intro d k _; rfl
  | cons hd tl ih =>
      intro d k hk
      obtain ⟨k', v'⟩ := hd
      simp only [List.map_cons, List.mem_cons] at hk
      push_neg at hk
      calc lookup (tl.foldl (fun d pt => d.insert pt.1 pt.2) (d.insert k' v')) k
          = lookup (d.insert k' v') k := ih (d.insert k' v') k hk.2
        _ = lookup d k := lookup_insert_ne d k' v' k (fun h => hk.1 h.symm)

/-- After folding entries with distinct keys, each entry is retrievable. -/
theorem lookup_foldl_insert_mem (l : List (Nat × Nat)) :
    ∀ d : Dict, (l.map Prod.fst).Nodup →
      ∀ pt ∈ l, lookup (l.foldl (fun d pt => d.insert pt.1 pt.2) d) pt.1 = some pt.2 := by
  induction l with
  | nil => intro d _ pt hpt; simp at hpt
  | cons hd tl ih =>
      intro d hnd pt hpt
      obtain ⟨k, v⟩ := hd
      simp only [List.map_cons, List.nodup_cons] at hnd
      rcases List.mem_cons.mp hpt with heq | hmem
      · subst heq
        calc lookup (tl.foldl (fun d pt => d.insert pt.1 pt.2) (d.insert k v)) k
            = lookup (d.insert k v) k :=
              lookup_foldl_insert_not_mem tl (d.insert k v) k hnd.1
          _ = some v := lookup_insert_self d k v
      · exact ih (d.insert k v) hnd.2 pt hmem

end Dict

namespace DistributedLock

/-- `orderSplit` computed by filters. -/
theorem orderSplit_eq (own : Nat) :
    ∀ l : List Nat,
      orderSplit own l =
        (l.filter (fun p => decide (own < p)), l.filter (fun p => decide (p < own)))
  | [] => rfl
  | p :: rest => by
      have ih := orderSplit_eq own rest
      by_cases h1 : p < own
      · have h2 : ¬ own < p := Nat.lt_asymm h1
        simp [orderSplit, ih, h1, h2]
      · by_cases h2 : own < p
        · simp [orderSplit, ih, h1, h2]
        · simp [orderSplit, ih, h1, h2]

/-- `get_order` computed by filters. -/
theorem get_order_eq (st : DistributedLock) :
    get_order st = st.peers.filter (fun p => decide (st.ownId < p))
      ++ st.peers.filter (fun p => decide (p < st.ownId)) := by
  simp [get_order, orderSplit_eq]

/-- Every id in the priority order is a current peer and is not our own. -/
theorem mem_get_order {st : DistributedLock} {p : Nat} (h : p ∈ get_order st) :
    p ∈ st.peers ∧ p ≠ st.ownId := by
  rw [get_order_eq] at h
  rcases List.mem_append.mp h with h' | h' <;>
    rcases List.mem_filter.mp h' with ⟨hmem, hlt⟩ <;>
    simp only [decide_eq_true_eq] at hlt
  · exact ⟨hmem, fun he => by subst he; exact lt_irrefl _ hlt⟩
  · exact ⟨hmem, fun he => by subst he; exact lt_irrefl _ hlt⟩

/-- The guard of the `release` forwarding loop:
`self.request[p] > self.token[p]`, `false` where a lookup would raise. -/
def pending (request : Dict) (token : Option Dict) (p : Nat) : Bool :=
  match request.lookup p, token with
  | some r, some tok =>
      match tok.lookup p with
      | some tv => decide (r > tv)
      | none => false
  | _, _ => false

/-- When no candidate passes the `request[p] > token[p]` guard (or a
lookup would raise on the very first candidate), the forwarding loop
changes nothing. -/
theorem releaseLoop_no_pending (reach : Nat → Bool) :
    ∀ (order : List Nat) (st : DistributedLock),
      (∀ p ∈ order, pending st.request st.token p = false) →
      releaseLoop reach order st = st
  | [], st, _ => rfl
  | p :: rest, st, h => by
      have hp := h p (by simp)
      have hrest : ∀ q ∈ rest, pending st.request st.token q = false :=
        fun q hq => h q (by simp [hq])
      unfold releaseLoop
      unfold pending at hp
      rcases hreq : st.request.lookup p with _ | r <;>
        rcases htok : st.token with _ | tok <;>
        simp only [hreq, htok] at hp ⊢
      rcases htv : tok.lookup p with _ | tv <;> simp only [htv] at hp ⊢
      simp only [decide_eq_false_iff_not] at hp
      simp only [if_neg hp]
      exact releaseLoop_no_pending reach rest st hrest

end DistributedLock

namespace DistributedLock

/-- With every candidate reachable and both dictionaries defined on the
order, the forwarding loop delivers the token to the first candidate
passing the `request[p] > token[p]` guard and stops. -/
theorem releaseLoop_all_reach (reach : Nat → Bool) :
    ∀ (order : List Nat) (st : DistributedLock) (tok : Dict),
      st.token = some tok →
      (∀ p ∈ order, reach p = true) →
      (∀ p ∈ order, (st.request.lookup p).isSome ∧ (tok.lookup p).isSome) →
      releaseLoop reach order st =
        match order.find? (pending st.request st.token) with
        | some p => { st with state := NO_TOKEN, sent := st.sent ++ [p] }
        | none => st
  | [], st, tok, _, _, _ => rfl
  | p :: rest, st, tok, htok, hreach, hwf => by
      obtain ⟨hr, ht⟩ := hwf p (by simp)
      rcases hreq : st.request.lookup p with _ | r
      · rw [hreq] at hr; simp at hr
      rcases htv : tok.lookup p with _ | tv
      · rw [htv] at ht; simp at ht
      have hrp : reach p = true := hreach p (by simp)
      have hpend : pending st.request st.token p = decide (r > tv) := by
        simp [pending, hreq, htok, htv]
      by_cases hgt : r > tv
      · rw [List.find?_cons_of_pos _ (by simp [hpend, hgt])]
        unfold releaseLoop
        rw [hreq, htok]
        simp only [htv, if_pos hgt, hrp, if_pos rfl]
        simp [Int.sub_add_cancel]
      · rw [List.find?_cons_of_neg _ (by simp [hpend, hgt])]
        have hred : releaseLoop reach (p :: rest) st = releaseLoop reach rest st := by
          conv_lhs => unfold releaseLoop
          rw [hreq, htok]
          simp only [htv, if_neg hgt]
        rw [hred]
        exact releaseLoop_all_reach reach rest st tok htok
          (fun q hq => hreach q (by simp [hq]))
          (fun q hq => hwf q (by simp [hq]))

/-- The `destroy` hand-off loop delivers the token to the first
reachable peer in the order, unconditionally, and evicts nobody. -/
theorem destroyLoop_spec (reach : Nat → Bool) :
    ∀ (order : List Nat) (st : DistributedLock),
      st.token.isSome = true →
      destroyLoop reach order st =
        match order.find? reach with
        | some p => { st with state := NO_TOKEN, sent := st.sent ++ [p] }
        | none => st
  | [], st, _ => rfl
  | p :: rest, st, htok => by
      by_cases hrp : reach p = true
      · rw [List.find?_cons_of_pos _ hrp]
        unfold destroyLoop
        simp only [htok, hrp, Bool.and_self, if_pos rfl]
        simp [Int.sub_add_cancel]
      · have hrp' : reach p = false := by simpa using hrp
        rw [List.find?_cons_of_neg _ (by simp [hrp'])]
        unfold destroyLoop
        simp only [htok, hrp', Bool.and_false, if_neg (by simp : ¬ (false : Bool) = true)]
        have harg :
            ({ { st with lockDepth := st.lockDepth - 1 } with
                lockDepth := st.lockDepth - 1 + 1 } : DistributedLock) = st := by
          simp [Int.sub_add_cancel]
        rw [harg]
        exact destroyLoop_spec reach rest st htok

/-- `initPeers` folds a zero entry for each peer into both dictionaries. -/
theorem initPeers_spec :
    ∀ (l : List Nat) (st : DistributedLock),
      initPeers l st =
        { st with
            request := l.foldl (fun d p => d.insert p 0) st.request,
            token := l.foldl (fun o p => o.map (fun tok => tok.insert p 0)) st.token }
  | [], st => by simp [initPeers]
  | p :: rest, st => by
      rw [initPeers, initPeers_spec rest]
      rfl

/-- Folding the token-side insertions commutes with `some`. -/
theorem foldl_map_insert :
    ∀ (l : List Nat) (tok : Dict),
      l.foldl (fun o p => o.map (fun t => t.insert p 0)) (some tok)
        = some (l.foldl (fun t p => t.insert p 0) tok)
  | [], _ => rfl
  | p :: rest, tok => foldl_map_insert rest (tok.insert p 0)

end DistributedLock

/-! ## Claim C9: serialization round-trip -/

namespace DistributedLock

/-- C9: for every token mapping (distinct keys, as any Python dict has),
`_prepare` followed by `_unprepare` yields a mapping with exactly the
same key-value pairs. -/
theorem C9_round_trip (d : Dict) (h : d.keys.Nodup) :
    unprepareTok (prepareTok d) = d := by
  have happ := Dict.foldl_insert_append d [] (by simpa [Dict.keys] using h)
  simpa [unprepareTok, prepareTok] using happ

theorem C9_wit : unprepareTok (prepareTok [(3, 1), (1, 2)]) = [(3, 1), (1, 2)] :=
  C9_round_trip [(3, 1), (1, 2)] (by decide)

end DistributedLock

/-! ## Claim C3: idempotence of `request_token` in `request[pid]` -/

namespace DistributedLock

/-- A state refuting C3 as stated: `request[1] = 5 > 3 = t`, yet the new
clock `max(time + 1, t + 1) = 101` exceeds the stored value. -/
def c3state : DistributedLock :=
  { ownId := 9, peers := [1], time := 100, token := some [(9, 0), (1, 0)],
    request := [(9, 0), (1, 5)], state := NO_TOKEN }

/-- C3 counterexample: with `request[1] = 5 > 3 = t`, a further
`request_token(3, 1)` changes `request[1]` from `5` to `101`, so the
call is not idempotent in `request[pid]` once the stored value merely
exceeds `t`. -/
theorem C3_cx :
    c3state.request.lookup 1 = some 5 ∧ 5 > 3 ∧
      ((request_token (fun _ => true) 3 1 c3state).1).request.lookup 1 = some 101 := by
  decide

/-- C3 (amended): `request_token(t, pid)` leaves `request[pid]` — indeed
the whole `request` mapping — unchanged once the stored value is at
least the new clock `max(clock + 1, t + 1)` (for a state in which the
trailing `release()` is not triggered). -/
theorem C3_idempotent (reach : Nat → Bool) (t pid : Nat) (st : DistributedLock)
    (r : Nat) (hreq : st.request.lookup pid = some r)
    (hge : max (st.time + 1) (t + 1) ≤ r)
    (hstate : st.state ≠ TOKEN_PRESENT) :
    ((request_token reach t pid st).1).request = st.request := by
  have hmax : max r (max (st.time + 1) (t + 1)) = r := max_eq_left hge
  have hins : st.request.insert pid r = st.request :=
    Dict.insert_lookup_self st.request pid r hreq
  unfold request_token requestTokenUpdate
  rw [hreq]
  simp [hreq, hmax, hins, hstate]

def c3wstate : DistributedLock :=
  { ownId := 2, peers := [1], time := 0, token := some [(2, 0), (1, 0)],
    request := [(2, 0), (1, 5)], state := NO_TOKEN }

theorem C3_wit :
    ((request_token (fun _ => true) 0 1 c3wstate).1).request = c3wstate.request :=
  C3_idempotent (fun _ => true) 0 1 c3wstate 5 (by decide) (by decide) (by decide)

end DistributedLock

/-! ## Claim C4: `release` and the monitor on the `NO_TOKEN` path -/

namespace DistributedLock

/-- C4: calling `release()` in state `NO_TOKEN` leaves every field of
the lock except the clock unchanged — but it returns with the monitor
still held (`lockDepth` one higher than at entry): the
`finally: self.peer_list.lock.release()` sits inside the
`TOKEN_PRESENT` branch and is never reached from `NO_TOKEN`. -/
theorem C4_release_no_token (reach : Nat → Bool) (st : DistributedLock)
    (h : st.state = NO_TOKEN) :
    release reach st
      = { st with lockDepth := st.lockDepth + 1, time := st.time + 1 } := by
  unfold release
  simp [h, NO_TOKEN, TOKEN_HELD, TOKEN_PRESENT]

def c4state : DistributedLock :=
  { ownId := 1, peers := [2], time := 7, token := some [(1, 0), (2, 0)],
    request := [(1, 0), (2, 0)], state := NO_TOKEN }

theorem C4_wit :
    release (fun _ => true) c4state
      = { c4state with lockDepth := c4state.lockDepth + 1,
                       time := c4state.time + 1 } :=
  C4_release_no_token (fun _ => true) c4state (by decide)

end DistributedLock

/-! ## Claim C1: state of the dictionaries after `initialize` -/

namespace Dict

/-- Folding zero-valued insertions of fresh distinct keys appends them. -/
theorem foldl_insert0_append (l : List Nat) (acc : Dict)
    (h : (keys acc ++ l).Nodup) :
    l.foldl (fun d p => d.insert p 0) acc = acc ++ l.map (fun p => (p, 0)) := by
  have hmap : (l.map (fun p => (p, 0))).foldl (fun d pt => d.insert pt.1 pt.2) acc
      = l.foldl (fun d p => d.insert p 0) acc := by
    rw [List.foldl_map]
  rw [← hmap]
  apply foldl_insert_append
  have hid : (l.map (fun p => (p, 0))).map Prod.fst = l := by
    simp [List.map_map, Function.comp_def]
  rw [hid]
  exact h

end Dict

namespace DistributedLock

/-- C1 counterexample: on a fresh peer with one other member,
`initialize()` leaves `state = NO_TOKEN` and yet the token mapping *is*
defined (`self.token = {own: 0}` is assigned unconditionally at line
105), refuting `state ∈ {TOKEN_PRESENT, TOKEN_HELD} ⇔ token defined`. -/
theorem C1_cx :
    (init (mkLock 1 [2])).state = NO_TOKEN
      ∧ (init (mkLock 1 [2])).token = some [(1, 0), (2, 0)]
      ∧ (init (mkLock 1 [2])).token ≠ none := by
  decide

/-- C1 (amended): after `initialize()` on a fresh peer the token mapping
is always defined — it maps the peer's own id and every current member
to `0`; the state is `TOKEN_PRESENT` exactly when no other member
exists (the first peer takes the token), and `NO_TOKEN` otherwise. -/
theorem C1_after_init (own : Nat) (peers : List Nat)
    (hnd : (own :: peers).Nodup) :
    (init (mkLock own peers)).token
        = some ((own, 0) :: peers.map (fun p => (p, 0)))
    ∧ (init (mkLock own peers)).request
        = (own, 0) :: peers.map (fun p => (p, 0))
    ∧ (init (mkLock own peers)).state
        = (if peers = [] then TOKEN_PRESENT else NO_TOKEN)
    ∧ (init (mkLock own peers)).token ≠ none
    ∧ (init (mkLock own peers)).lockDepth = 0 := by
  have hk : (Dict.keys [(own, 0)] ++ peers).Nodup := by simpa using hnd
  have hfold := Dict.foldl_insert0_append peers [(own, 0)] hk
  cases peers with
  | nil => simp [init, mkLock, Dict.insert, NO_TOKEN, TOKEN_PRESENT]
  | cons p rest =>
      have hcore : List.foldl (fun t q => t.insert q 0) (Dict.insert [] own 0) (p :: rest)
          = (own, 0) :: (p :: rest).map (fun q => (q, 0)) := by
        rw [show Dict.insert [] own 0 = [(own, 0)] from rfl, hfold]
        simp
      refine ⟨?_, ?_, ?_, ?_, ?_⟩ <;>
        simp only [init, mkLock, initPeers_spec, foldl_map_insert]
      · rw [hcore]
      · rw [hcore]
      · simp
      · rw [hcore]; simp
      · simp

theorem C1_wit :
    (init (mkLock 1 [2])).token = some ((1, 0) :: [2].map (fun p => (p, 0)))
    ∧ (init (mkLock 1 [2])).request = (1, 0) :: [2].map (fun p => (p, 0))
    ∧ (init (mkLock 1 [2])).state = (if ([2] : List Nat) = [] then TOKEN_PRESENT else NO_TOKEN)
    ∧ (init (mkLock 1 [2])).token ≠ none
    ∧ (init (mkLock 1 [2])).lockDepth = 0 :=
  C1_after_init 1 [2] (by decide)

end DistributedLock

/-! ## Claim C2: hand-off order and recipient on `release` -/

namespace DistributedLock

/-- `release()` from `TOKEN_PRESENT` with every candidate reachable:
the token goes to the first peer of the priority order passing the
`request[p] > token[p]` guard (none: the token stays). -/
theorem release_present_spec (reach : Nat → Bool) (st : DistributedLock) (tok : Dict)
    (hstate : st.state = TOKEN_PRESENT)
    (htok : st.token = some tok)
    (hreach : ∀ p ∈ get_order st, reach p = true)
    (hwf : ∀ p ∈ get_order st,
      (st.request.lookup p).isSome ∧ (tok.lookup p).isSome) :
    (∀ p, (get_order st).find? (pending st.request st.token) = some p →
        release reach st
          = { st with state := NO_TOKEN, sent := st.sent ++ [p],
                      time := st.time + 1 })
    ∧ ((get_order st).find? (pending st.request st.token) = none →
        release reach st = { st with time := st.time + 1 }) := by
  have hloop := releaseLoop_all_reach reach (get_order st)
    { st with lockDepth := st.lockDepth + 1, time := st.time + 1 } tok htok hreach hwf
  simp only [] at hloop
  have hrel : release reach st
      = { releaseLoop reach (get_order st)
            { st with lockDepth := st.lockDepth + 1, time := st.time + 1 } with
          lockDepth := (releaseLoop reach (get_order st)
            { st with lockDepth := st.lockDepth + 1, time := st.time + 1 }).lockDepth
              - 1 } := by
    unfold release
    simp [hstate, TOKEN_PRESENT, TOKEN_HELD, get_order]
  constructor
  · intro p hfind
    rw [hfind] at hloop
    rw [hrel, hloop]
    simp [Int.add_sub_cancel]
  · intro hfind
    rw [hfind] at hloop
    rw [hrel, hloop]
    simp [Int.add_sub_cancel]

/-- C2: for an ascending membership list, the priority order computed
for `release` is exactly the ids above our own in ascending order
followed by the ids below our own in ascending order; and with every
peer reachable, `release()` from `TOKEN_PRESENT` sends the token to the
first peer `p` of that order with `request[p] > token[p]` — exactly one
send, after which `state = NO_TOKEN` — or keeps the token when no
candidate qualifies. -/
theorem C2_release_order (st : DistributedLock) (tok : Dict) (reach : Nat → Bool)
    (hsort : st.peers.Pairwise (· < ·))
    (hstate : st.state = TOKEN_PRESENT)
    (htok : st.token = some tok)
    (hreach : ∀ p ∈ get_order st, reach p = true)
    (hwf : ∀ p ∈ get_order st,
      (st.request.lookup p).isSome ∧ (tok.lookup p).isSome) :
    get_order st
        = st.peers.filter (fun p => decide (st.ownId < p))
          ++ st.peers.filter (fun p => decide (p < st.ownId))
    ∧ (st.peers.filter (fun p => decide (st.ownId < p))).Pairwise (· < ·)
    ∧ (st.peers.filter (fun p => decide (p < st.ownId))).Pairwise (· < ·)
    ∧ (∀ p, (get_order st).find? (pending st.request st.token) = some p →
        release reach st
          = { st with state := NO_TOKEN, sent := st.sent ++ [p],
                      time := st.time + 1 })
    ∧ ((get_order st).find? (pending st.request st.token) = none →
        release reach st = { st with time := st.time + 1 }) :=
  ⟨get_order_eq st, hsort.filter _, hsort.filter _,
    (release_present_spec reach st tok hstate htok hreach hwf).1,
    (release_present_spec reach st tok hstate htok hreach hwf).2⟩

/-- The scenario S3 of the spec: peers `{1, 2, 3, 4}`, holder `2`,
outstanding requests from `4` and `1`. -/
def c2state : DistributedLock :=
  { ownId := 2, peers := [1, 3, 4], time := 10,
    token := some [(2, 0), (1, 0), (3, 0), (4, 0)],
    request := [(2, 0), (1, 7), (3, 0), (4, 6)], state := TOKEN_PRESENT }

theorem C2_wit :
    get_order c2state = [3, 4, 1]
    ∧ release (fun _ => true) c2state
        = { c2state with state := NO_TOKEN, sent := c2state.sent ++ [4],
                         time := c2state.time + 1 } :=
  ⟨(C2_release_order c2state [(2, 0), (1, 0), (3, 0), (4, 0)] (fun _ => true)
      (by decide) (by decide) (by decide) (by decide) (by decide)).1.trans (by decide),
   (C2_release_order c2state [(2, 0), (1, 0), (3, 0), (4, 0)] (fun _ => true)
      (by decide) (by decide) (by decide) (by decide) (by decide)).2.2.2.1 4 (by decide)⟩

end DistributedLock

/-! ## Claim C8: the `request_token` update step -/

namespace DistributedLock

/-- C8: with `pid` in the domain of `request`, the monitor section of
`request_token(t, pid)` sets the clock to `max(clock + 1, t + 1)`, sets
`request[pid]` to the maximum of its old value and the new clock, leaves
every other key of `request` and every other field unchanged, and the
trailing `release()` is invoked exactly when `state = TOKEN_PRESENT`. -/
theorem C8_request_token (reach : Nat → Bool) (t pid : Nat) (st : DistributedLock)
    (r : Nat) (hreq : st.request.lookup pid = some r) :
    (requestTokenUpdate t pid st).time = max (st.time + 1) (t + 1)
    ∧ (requestTokenUpdate t pid st).request.lookup pid
        = some (max r (max (st.time + 1) (t + 1)))
    ∧ (∀ q, q ≠ pid →
        (requestTokenUpdate t pid st).request.lookup q = st.request.lookup q)
    ∧ (requestTokenUpdate t pid st).token = st.token
    ∧ (requestTokenUpdate t pid st).state = st.state
    ∧ (requestTokenUpdate t pid st).peers = st.peers
    ∧ (requestTokenUpdate t pid st).ownId = st.ownId
    ∧ (requestTokenUpdate t pid st).lockDepth = st.lockDepth
    ∧ (requestTokenUpdate t pid st).sent = st.sent
    ∧ (requestTokenUpdate t pid st).notified = st.notified
    ∧ (requestTokenUpdate t pid st).evictLog = st.evictLog
    ∧ (requestTokenUpdate t pid st).unregistered = st.unregistered
    ∧ (requestTokenUpdate t pid st).uncaughtErr = st.uncaughtErr
    ∧ ((request_token reach t pid st).2 = true ↔ st.state = TOKEN_PRESENT) := by
  have hupd : requestTokenUpdate t pid st
      = { st with time := max (st.time + 1) (t + 1),
                  request := st.request.insert pid
                    (max r (max (st.time + 1) (t + 1))),
                  lockDepth := st.lockDepth + 1 - 1 } := by
    unfold requestTokenUpdate
    simp only [hreq]
  refine ⟨?_, ?_, ?_, ?_, ?_, ?_, ?_, ?_, ?_, ?_, ?_, ?_, ?_, ?_⟩
  · rw [hupd]
  · rw [hupd]
    exact Dict.lookup_insert_self st.request pid _
  · intro q hq
    rw [hupd]
    exact Dict.lookup_insert_ne st.request pid _ q (fun h => hq h.symm)
  · rw [hupd]
  · rw [hupd]
  · rw [hupd]
  · rw [hupd]
  · rw [hupd]; simp [Int.add_sub_cancel]
  · rw [hupd]
  · rw [hupd]
  · rw [hupd]
  · rw [hupd]
  · rw [hupd]
  · unfold request_token
    rw [hreq, hupd]
    by_cases hstate : st.state = TOKEN_PRESENT <;> simp [hstate]

def c8state : DistributedLock :=
  { ownId := 1, peers := [2], time := 4, token := some [(1, 0), (2, 0)],
    request := [(1, 0), (2, 3)], state := TOKEN_PRESENT }

theorem C8_wit :
    (requestTokenUpdate 9 2 c8state).time = max (c8state.time + 1) (9 + 1)
    ∧ (requestTokenUpdate 9 2 c8state).request.lookup 2
        = some (max 3 (max (c8state.time + 1) (9 + 1)))
    ∧ (requestTokenUpdate 9 2 c8state).request.lookup 1 = c8state.request.lookup 1
    ∧ (requestTokenUpdate 9 2 c8state).token = c8state.token
    ∧ (requestTokenUpdate 9 2 c8state).state = c8state.state
    ∧ ((request_token (fun _ => true) 9 2 c8state).2 = true
        ↔ c8state.state = TOKEN_PRESENT) :=
  ⟨(C8_request_token (fun _ => true) 9 2 c8state 3 (by decide)).1,
   (C8_request_token (fun _ => true) 9 2 c8state 3 (by decide)).2.1,
   (C8_request_token (fun _ => true) 9 2 c8state 3 (by decide)).2.2.1 1 (by decide),
   (C8_request_token (fun _ => true) 9 2 c8state 3 (by decide)).2.2.2.1,
   (C8_request_token (fun _ => true) 9 2 c8state 3 (by decide)).2.2.2.2.1,
   (C8_request_token (fun _ => true) 9 2 c8state 3 (by decide)).2.2.2.2.2.2.2.2.2.2.2.2.2⟩

end DistributedLock

/-! ## Claim C6: failure handling of outbound calls in `acquire`/`release` -/

namespace DistributedLock

/-- Entry state for the `release` failure path: one candidate (peer 2)
with an outstanding request, unreachable.  The monitor is free at entry
(`lockDepth = 0`). -/
def c6rstate : DistributedLock :=
  { ownId := 1, peers := [2], time := 0, token := some [(1, 0), (2, 0)],
    request := [(1, 0), (2, 5)], state := TOKEN_PRESENT }

/-- Entry state for the `acquire` failure path: same membership, no
token anywhere. -/
def c6astate : DistributedLock :=
  { ownId := 1, peers := [2], time := 7, token := some [(1, 0), (2, 0)],
    request := [(1, 0), (2, 0)], state := NO_TOKEN }

/-- C6: on a transport error both handlers delete `p` from `request` and
`token` and call `peer_list.unregister_peer(p)` and continue — but only
`acquire`'s handler re-acquires the monitor first.  `acquire`'s eviction
of peer 2 happens at monitor hold-depth 1 (held), while `release`'s
happens at hold-depth 0 (not held: its handler skips the re-acquire),
after which `release`'s `finally` drives the depth to `-1` — an
unbalanced `lock.release()`. -/
theorem C6_failure_handler :
    (acquireRequestPhase (fun _ => false) c6astate).evictLog = [(2, 1)]
    ∧ (acquireRequestPhase (fun _ => false) c6astate).request = [(1, 0)]
    ∧ (acquireRequestPhase (fun _ => false) c6astate).token = some [(1, 0)]
    ∧ (acquireRequestPhase (fun _ => false) c6astate).unregistered = [2]
    ∧ (release (fun _ => false) c6rstate).evictLog = [(2, 0)]
    ∧ (release (fun _ => false) c6rstate).request = [(1, 0)]
    ∧ (release (fun _ => false) c6rstate).token = some [(1, 0)]
    ∧ (release (fun _ => false) c6rstate).unregistered = [2]
    ∧ (release (fun _ => false) c6rstate).lockDepth = -1 := by
  decide

end DistributedLock

/-! ## Claim C5: `destroy` hands the token off -/

namespace DistributedLock

/-- The guard of the forwarding loop ignores token entries of other
keys. -/
theorem pending_insert_ne (request : Dict) (tok : Dict) (k v p : Nat)
    (h : k ≠ p) :
    pending request (some (tok.insert k v)) p = pending request (some tok) p := by
  unfold pending
  rcases request.lookup p with _ | r
  · rfl
  · simp [Dict.lookup_insert_ne tok k v p h]

/-- `release()` by the token holder when no peer passes the
`request[p] > token[p]` guard: the holder stamps `token[own]` with the
new clock, moves to `TOKEN_PRESENT`, scans the whole order without
sending or evicting, and releases the monitor. -/
theorem release_held_no_pending (reach : Nat → Bool) (st : DistributedLock) (tok : Dict)
    (hstate : st.state = TOKEN_HELD)
    (htok : st.token = some tok)
    (hnp : ∀ p ∈ get_order st,
      pending st.request (some (tok.insert st.ownId (st.time + 1))) p = false) :
    release reach st
      = { st with time := st.time + 1, state := TOKEN_PRESENT,
                  token := some (tok.insert st.ownId (st.time + 1)) } := by
  have hloop := releaseLoop_no_pending reach (get_order st)
    { st with time := st.time + 1, state := TOKEN_PRESENT,
              token := some (tok.insert st.ownId (st.time + 1)),
              lockDepth := st.lockDepth + 1 }
    (fun p hp => hnp p hp)
  unfold release
  simp only [hstate, htok, TOKEN_HELD, TOKEN_PRESENT, get_order] at hloop ⊢
  simp [hloop, Int.add_sub_cancel]

/-- `destroy` with its inner `let`s flattened (definitional). -/
theorem destroy_eq (reach : Nat → Bool) (st : DistributedLock) :
    destroy reach st =
      (let st1 : DistributedLock :=
        { st with lockDepth := st.lockDepth + 1, time := st.time + 1 }
       let st2 := if st1.state ≠ NO_TOKEN then
           { release reach { st1 with lockDepth := st1.lockDepth - 1 } with
             lockDepth :=
               (release reach { st1 with lockDepth := st1.lockDepth - 1 }).lockDepth
                 + 1 }
         else st1
       let st3 := if st2.state = TOKEN_PRESENT
         then destroyLoop reach (get_order st2) st2 else st2
       { st3 with lockDepth := st3.lockDepth - 1 }) := rfl

/-- `destroy()` by the holder with no candidate passing the request
guard, as one equation: the embedded `release()` keeps the token, then
the walk hands it to the first reachable peer. -/
theorem destroy_held_no_pending (st : DistributedLock) (tok : Dict) (reach : Nat → Bool)
    (hstate : st.state = TOKEN_HELD)
    (htok : st.token = some tok)
    (hnp : ∀ p ∈ get_order st, pending st.request (some tok) p = false) :
    destroy reach st =
      (match (get_order st).find? reach with
       | some p =>
           { st with time := st.time + 2, state := NO_TOKEN,
                     token := some (tok.insert st.ownId (st.time + 2)),
                     sent := st.sent ++ [p] }
       | none =>
           { st with time := st.time + 2, state := TOKEN_PRESENT,
                     token := some (tok.insert st.ownId (st.time + 2)) }) := by
  have hargnp : ∀ p ∈ get_order ({ st with time := st.time + 1,
                                           lockDepth := st.lockDepth + 1 - 1 }
                                  : DistributedLock),
      pending st.request (some (tok.insert st.ownId (st.time + 1 + 1))) p = false := by
    intro p hp
    have hp' : p ∈ get_order st := hp
    have hown : st.ownId ≠ p := Ne.symm (mem_get_order hp').2
    rw [pending_insert_ne st.request tok st.ownId (st.time + 1 + 1) p hown]
    exact hnp p hp'
  have hrel := release_held_no_pending reach
    { st with time := st.time + 1, lockDepth := st.lockDepth + 1 - 1 }
    tok hstate htok hargnp
  have hne : st.state ≠ NO_TOKEN := by rw [hstate]; simp [TOKEN_HELD, NO_TOKEN]
  rw [destroy_eq]
  simp only []
  rw [if_pos (show (({ st with lockDepth := st.lockDepth + 1, time := st.time + 1 })
      : DistributedLock).state ≠ NO_TOKEN from hne)]
  rw [show ({ ({ st with lockDepth := st.lockDepth + 1, time := st.time + 1 }
        : DistributedLock) with
      lockDepth := ({ st with lockDepth := st.lockDepth + 1, time := st.time + 1 }
        : DistributedLock).lockDepth - 1 } : DistributedLock)
      = { st with time := st.time + 1, lockDepth := st.lockDepth + 1 - 1 } from rfl]
  rw [hrel]
  simp only [Int.add_sub_cancel]
  simp only [if_true]
  rw [destroyLoop_spec reach _ _ (by rfl)]
  simp only [get_order]
  rcases hfind : List.find? reach
      ((orderSplit st.ownId st.peers).1 ++ (orderSplit st.ownId st.peers).2)
    with _ | p
  · simp only [hfind]
    simp [Int.add_sub_cancel, show st.time + 1 + 1 = st.time + 2 from rfl]
  · simp only [hfind]
    simp [Int.add_sub_cancel, show st.time + 1 + 1 = st.time + 2 from rfl]


/-- C5: `destroy()` by the holder (`state = TOKEN_HELD`) first performs
`release()` (which stamps `token[own]` with the new clock and keeps the
token when no peer passes the `request[p] > token[p]` guard); the walk
then hands the token to the first reachable peer of the priority order
unconditionally — no request guard — evicting and unregistering nobody;
on a successful hand-off the final state is `NO_TOKEN`, and the token is
kept only when every other peer is unreachable. -/
theorem C5_destroy (st : DistributedLock) (tok : Dict) (reach : Nat → Bool)
    (hstate : st.state = TOKEN_HELD)
    (htok : st.token = some tok)
    (hnp : ∀ p ∈ get_order st, pending st.request (some tok) p = false) :
    (destroy reach st).request = st.request
    ∧ (destroy reach st).evictLog = st.evictLog
    ∧ (destroy reach st).unregistered = st.unregistered
    ∧ (destroy reach st).token = some (tok.insert st.ownId (st.time + 2))
    ∧ (destroy reach st).lockDepth = st.lockDepth
    ∧ (∀ p, (get_order st).find? reach = some p →
        (destroy reach st).state = NO_TOKEN
          ∧ (destroy reach st).sent = st.sent ++ [p])
    ∧ ((get_order st).find? reach = none →
        (destroy reach st).state = TOKEN_PRESENT
          ∧ (destroy reach st).sent = st.sent) := by
  have h := destroy_held_no_pending st tok reach hstate htok hnp
  rcases hfind : (get_order st).find? reach with _ | p
  · rw [hfind] at h
    rw [h]
    refine ⟨rfl, rfl, rfl, rfl, rfl, ?_, ?_⟩
    · intro q hq
      exact Option.noConfusion hq
    · intro _
      exact ⟨rfl, rfl⟩
  · rw [hfind] at h
    rw [h]
    refine ⟨rfl, rfl, rfl, rfl, rfl, ?_, ?_⟩
    · intro q hq
      injection hq with hpq
      subst hpq
      exact ⟨rfl, rfl⟩
    · intro hq
      exact Option.noConfusion hq

/-- The scenario S5 of the spec: holder `2` destroys itself with peers
`{1, 3}` alive and no outstanding requests. -/
def c5state : DistributedLock :=
  { ownId := 2, peers := [1, 3], time := 10,
    token := some [(2, 4), (1, 0), (3, 0)],
    request := [(2, 0), (1, 0), (3, 0)], state := TOKEN_HELD }

theorem C5_wit :
    (destroy (fun _ => true) c5state).request = c5state.request
    ∧ (destroy (fun _ => true) c5state).unregistered = c5state.unregistered
    ∧ (destroy (fun _ => true) c5state).token
        = some (Dict.insert [(2, 4), (1, 0), (3, 0)] c5state.ownId (c5state.time + 2))
    ∧ (destroy (fun _ => true) c5state).state = NO_TOKEN
    ∧ (destroy (fun _ => true) c5state).sent = c5state.sent ++ [3] :=
  ⟨(C5_destroy c5state [(2, 4), (1, 0), (3, 0)] (fun _ => true)
      (by decide) (by decide) (by decide)).1,
   (C5_destroy c5state [(2, 4), (1, 0), (3, 0)] (fun _ => true)
      (by decide) (by decide) (by decide)).2.2.1,
   (C5_destroy c5state [(2, 4), (1, 0), (3, 0)] (fun _ => true)
      (by decide) (by decide) (by decide)).2.2.2.1,
   ((C5_destroy c5state [(2, 4), (1, 0), (3, 0)] (fun _ => true)
      (by decide) (by decide) (by decide)).2.2.2.2.2.1 3 (by decide)).1,
   ((C5_destroy c5state [(2, 4), (1, 0), (3, 0)] (fun _ => true)
      (by decide) (by decide) (by decide)).2.2.2.2.2.1 3 (by decide)).2⟩

end DistributedLock

/-! ## Claims C7 and C10: `obtain_token` -/

namespace DistributedLock

/-- On an all-well-formed payload the merge folds every entry into the
token dictionary and the clock becomes the running maximum of the
received timestamps plus one. -/
theorem obtainLoop_ok_map :
    ∀ (l : List (Nat × Nat)) (tok : Dict) (time : Nat),
      obtainLoop (l.map (fun pt => PEntry.ok pt.1 pt.2)) tok time
        = (l.foldl (fun d pt => d.insert pt.1 pt.2) tok,
           l.foldl (fun tm pt => max tm (pt.2 + 1)) time, false)
  | [], _, _ => rfl
  | pt :: rest, tok, time =>
      obtainLoop_ok_map rest (tok.insert pt.1 pt.2) (max time (pt.2 + 1))

/-- The running clock maximum never decreases below its seed. -/
theorem foldl_max_init_le :
    ∀ (l : List (Nat × Nat)) (time : Nat),
      time ≤ l.foldl (fun tm pt => max tm (pt.2 + 1)) time
  | [], _ => le_refl _
  | pt :: rest, time =>
      le_trans (le_max_left time (pt.2 + 1))
        (foldl_max_init_le rest (max time (pt.2 + 1)))

/-- Every folded timestamp lies strictly below the final clock. -/
theorem foldl_max_mem_lt (l : List (Nat × Nat)) :
    ∀ (time : Nat) (pt : Nat × Nat), pt ∈ l →
      pt.2 < l.foldl (fun tm pt => max tm (pt.2 + 1)) time := by
  induction l with
  | nil => intro time pt h; simp at h
  | cons hd tl ih =>
      intro time pt h
      rcases List.mem_cons.mp h with he | hm
      · subst he
        calc pt.2 < pt.2 + 1 := Nat.lt_succ_self _
          _ ≤ max time (pt.2 + 1) := le_max_right _ _
          _ ≤ _ := foldl_max_init_le tl (max time (pt.2 + 1))
      · exact ih (max time (hd.2 + 1)) pt hm

/-- C7: receiving a well-formed serialized token (distinct keys) makes
`obtain_token` set `state = TOKEN_PRESENT`, store `token[p] = t` for
every received pair `(p, t)`, and leave the clock strictly above every
received timestamp and above the previous clock; the monitor is
released. -/
theorem C7_obtain_token (st : DistributedLock) (tok : Dict)
    (entries : List (Nat × Nat))
    (htok : st.token = some tok)
    (hnd : (entries.map Prod.fst).Nodup) :
    (obtain_token (entries.map (fun pt => PEntry.ok pt.1 pt.2)) st).state
        = TOKEN_PRESENT
    ∧ (obtain_token (entries.map (fun pt => PEntry.ok pt.1 pt.2)) st).token
        = some (entries.foldl (fun d pt => d.insert pt.1 pt.2) tok)
    ∧ (∀ pt ∈ entries,
        (entries.foldl (fun d pt => d.insert pt.1 pt.2) tok).lookup pt.1
          = some pt.2)
    ∧ (∀ pt ∈ entries,
        pt.2 < (obtain_token (entries.map (fun pt => PEntry.ok pt.1 pt.2)) st).time)
    ∧ st.time < (obtain_token (entries.map (fun pt => PEntry.ok pt.1 pt.2)) st).time
    ∧ (obtain_token (entries.map (fun pt => PEntry.ok pt.1 pt.2)) st).lockDepth
        = st.lockDepth := by
  have hob : obtain_token (entries.map (fun pt => PEntry.ok pt.1 pt.2)) st
      = { st with
          token := some (entries.foldl (fun d pt => d.insert pt.1 pt.2) tok),
          time := entries.foldl (fun tm pt => max tm (pt.2 + 1)) (st.time + 1),
          state := TOKEN_PRESENT, notified := true,
          lockDepth := st.lockDepth + 1 - 1 } := by
    unfold obtain_token
    simp only [htok, obtainLoop_ok_map]
  refine ⟨?_, ?_, ?_, ?_, ?_, ?_⟩
  · rw [hob]
  · rw [hob]
  · exact Dict.lookup_foldl_insert_mem entries tok hnd
  · intro pt hpt
    rw [hob]
    exact foldl_max_mem_lt entries (st.time + 1) pt hpt
  · rw [hob]
    exact Nat.lt_of_lt_of_le (Nat.lt_succ_self _)
      (foldl_max_init_le entries (st.time + 1))
  · rw [hob]
    simp [Int.add_sub_cancel]

def c7state : DistributedLock :=
  { ownId := 3, peers := [1], time := 4, token := some [(3, 0), (1, 0)],
    request := [(3, 0), (1, 0)], state := NO_TOKEN }

theorem C7_wit :
    (obtain_token ([(1, 9), (3, 2)].map (fun pt => PEntry.ok pt.1 pt.2)) c7state).state
        = TOKEN_PRESENT
    ∧ (obtain_token ([(1, 9), (3, 2)].map (fun pt => PEntry.ok pt.1 pt.2)) c7state).token
        = some ([(1, 9), (3, 2)].foldl (fun d pt => Dict.insert d pt.1 pt.2)
            [(3, 0), (1, 0)])
    ∧ Dict.lookup ([(1, 9), (3, 2)].foldl (fun d pt => Dict.insert d pt.1 pt.2)
        [(3, 0), (1, 0)]) 1 = some 9
    ∧ 9 < (obtain_token ([(1, 9), (3, 2)].map (fun pt => PEntry.ok pt.1 pt.2)) c7state).time
    ∧ c7state.time
        < (obtain_token ([(1, 9), (3, 2)].map (fun pt => PEntry.ok pt.1 pt.2)) c7state).time :=
  ⟨(C7_obtain_token c7state [(3, 0), (1, 0)] [(1, 9), (3, 2)] (by decide) (by decide)).1,
   (C7_obtain_token c7state [(3, 0), (1, 0)] [(1, 9), (3, 2)] (by decide) (by decide)).2.1,
   (C7_obtain_token c7state [(3, 0), (1, 0)] [(1, 9), (3, 2)] (by decide) (by decide)).2.2.1
     (1, 9) (by decide),
   (C7_obtain_token c7state [(3, 0), (1, 0)] [(1, 9), (3, 2)] (by decide) (by decide)).2.2.2.1
     (1, 9) (by decide),
   (C7_obtain_token c7state [(3, 0), (1, 0)] [(1, 9), (3, 2)] (by decide) (by decide)).2.2.2.2.1⟩

/-- The well-formed entries preceding the first malformed one: exactly
what the `try` block has merged when the exception is raised. -/
def goodEntries : List PEntry → List (Nat × Nat)
  | PEntry.ok p t :: rest => (p, t) :: goodEntries rest
  | _ => []

/-- The merged dictionary is the fold of the well-formed prefix. -/
theorem obtainLoop_token_eq :
    ∀ (payload : List PEntry) (tok : Dict) (time : Nat),
      (obtainLoop payload tok time).1
        = (goodEntries payload).foldl (fun d pt => Dict.insert d pt.1 pt.2) tok
  | [], _, _ => rfl
  | .ok p t :: rest, tok, time => obtainLoop_token_eq rest (tok.insert p t) (max time (t + 1))
  | .bad :: _, _, _ => rfl

/-- C10: whatever payload `obtain_token` receives — including malformed
ones whose merge raises partway — it finishes with
`state = TOKEN_PRESENT`, the condition variable notified and the monitor
released, propagates no error to the remote caller, and the entries
merged before the failure (the well-formed prefix) remain applied. -/
theorem C10_obtain_total (st : DistributedLock) (payload : List PEntry) :
    (obtain_token payload st).state = TOKEN_PRESENT
    ∧ (obtain_token payload st).notified = true
    ∧ (obtain_token payload st).lockDepth = st.lockDepth
    ∧ (obtain_token payload st).uncaughtErr = st.uncaughtErr
    ∧ (∀ tok, st.token = some tok →
        (obtain_token payload st).token
          = some ((goodEntries payload).foldl (fun d pt => Dict.insert d pt.1 pt.2) tok)) := by
  rcases htok : st.token with _ | tok
  · unfold obtain_token
    simp only [htok]
    refine ⟨by trivial, by trivial, by simp [Int.add_sub_cancel], by trivial, ?_⟩
    intro tok h
    exact Option.noConfusion h
  · unfold obtain_token
    simp only [htok]
    refine ⟨?_, ?_, ?_, ?_, ?_⟩
    · simp
    · simp
    · simp [Int.add_sub_cancel]
    · simp
    · intro tok' h
      injection h with h'
      subst h'
      simp [obtainLoop_token_eq]

def c10state : DistributedLock :=
  { ownId := 3, peers := [1], time := 4, token := some [(3, 0), (1, 0)],
    request := [(3, 0), (1, 0)], state := NO_TOKEN }

theorem C10_wit :
    (obtain_token [PEntry.ok 1 9, PEntry.bad, PEntry.ok 3 2] c10state).state
        = TOKEN_PRESENT
    ∧ (obtain_token [PEntry.ok 1 9, PEntry.bad, PEntry.ok 3 2] c10state).notified = true
    ∧ (obtain_token [PEntry.ok 1 9, PEntry.bad, PEntry.ok 3 2] c10state).lockDepth
        = c10state.lockDepth
    ∧ (obtain_token [PEntry.ok 1 9, PEntry.bad, PEntry.ok 3 2] c10state).token
        = some ((goodEntries [PEntry.ok 1 9, PEntry.bad, PEntry.ok 3 2]).foldl
            (fun d pt => Dict.insert d pt.1 pt.2) [(3, 0), (1, 0)]) :=
  ⟨(C10_obtain_total c10state [PEntry.ok 1 9, PEntry.bad, PEntry.ok 3 2]).1,
   (C10_obtain_total c10state [PEntry.ok 1 9, PEntry.bad, PEntry.ok 3 2]).2.1,
   (C10_obtain_total c10state [PEntry.ok 1 9, PEntry.bad, PEntry.ok 3 2]).2.2.1,
   (C10_obtain_total c10state [PEntry.ok 1 9, PEntry.bad, PEntry.ok 3 2]).2.2.2.2
     [(3, 0), (1, 0)] rfl⟩

end DistributedLock
